import Mathlib

/-!
Verification of the kanban task-board core: the `TaskList` class of
`src/features/tasks/class/TaskList.ts` together with the drag/drop
transfer-channel helpers it imports from `src/features/tasks/utils`.

The embedding is shallow: the mutable `tasks` array of the class becomes a
`List Task` threaded explicitly through each operation; an in-place mutation
becomes a function returning the updated collection together with the
operation's return value.  The `TaskStatus` string union
`"To Do" | "In Progress" | "Done"` becomes a closed inductive type whose
constructors `toDo`, `inProgress`, `done` stand for these three literals.
-/

set_option autoImplicit false

namespace Kanban

/-- The closed status enumeration: `TaskStatus = "To Do" | "In Progress" | "Done"`
from `@/types`. `toDo`, `inProgress`, `done` stand for the three string literals. -/
inductive TaskStatus where
  | toDo
  | inProgress
  | done
deriving DecidableEq, Repr

/-- A task record `{id, status, ...opaque fields}`.  `title` stands for the
opaque descriptive payload never inspected by the core logic. -/
structure Task where
  id : String
  status : TaskStatus
  title : String
deriving DecidableEq, Repr

/-- The `TaskList` class state: its `tasks: Task[]` field.  The constructor
`constructor(initialTasks) { this.tasks = [...initialTasks] }` copies the seed
array, so the state is just the list of task values in insertion order. -/
structure TaskList where
  tasks : List Task
deriving DecidableEq, Repr

/-- Modelled from the spec: the browser drag transfer channel
(`DataTransfer`), used by the helpers `setDraggedTaskId` / `getDraggedTaskId`
of `src/features/tasks/utils`, which are not part of the sources at hand.
Per spec section 3 and section 9 it is "an ephemeral, single-value channel
(conceptually: a string keyed by a well-known name)" with
`write(key, value)` / `read(key) -> optional value` semantics; the single
well-known key is left implicit and the channel holds at most one stored
task identifier. -/
structure DataTransferChannel where
  draggedTaskId : Option String
deriving DecidableEq, Repr

/-- Modelled from the spec: `setDraggedTaskId(dataTransfer, taskId)` writes
`taskId` into the channel under the well-known key.  A `null` transfer object
(`DataTransfer | null` in the caller's signature) has no channel to write to,
so the write is a silent no-op, in line with spec section 7 ("the core must
never throw"). -/
def setDraggedTaskId (dataTransfer : Option DataTransferChannel) (taskId : String) :
    Option DataTransferChannel :=
  match dataTransfer with
  | none => none
  | some _ => some { draggedTaskId := some taskId }

/-- Modelled from the spec: `getDraggedTaskId(dataTransfer)` reads the stored
task identifier back out of the channel (`read(key) -> optional value`); a
`null` transfer object or a channel into which nothing was written yields no
value. -/
def getDraggedTaskId (dataTransfer : Option DataTransferChannel) : Option String :=
  match dataTransfer with
  | none => none
  | some channel => channel.draggedTaskId

namespace TaskList

/-- `getAll(): Task[] { return [...this.tasks] }` — the task values of the
returned snapshot, in insertion order.  (Array identity and the aliasing
behaviour of the spread copy are modelled separately below by the
heap-indexed model `JSModel`.) -/
def getAll (tl : TaskList) : List Task :=
  tl.tasks

/-- `getByStatus(status) { return this.tasks.filter((task) => task.status === status) }`. -/
def getByStatus (tl : TaskList) (status : TaskStatus) : List Task :=
  tl.tasks.filter (fun task => task.status == status)

/-- `add(newTask) { this.tasks.push(newTask) }`. -/
def add (tl : TaskList) (newTask : Task) : TaskList :=
  { tasks := tl.tasks ++ [newTask] }

/-- The body of `updateTaskStatus` on the underlying array:
`this.tasks.find((task) => task.id === taskId)` locates the first task whose
id matches; if none, return `false`; if its status is already the target,
return `false`; otherwise mutate that task's `status` field in place and
return `true`.  The recursion walks the array once, updating exactly the
first match, which is what `find` + in-place mutation do. -/
def updateTaskStatusAux : List Task → String → TaskStatus → List Task × Bool
  | [], _, _ => ([], false)
  | task :: rest, taskId, targetStatus =>
    if task.id == taskId then
      if task.status == targetStatus then
        (task :: rest, false)
      else
        ({ task with status := targetStatus } :: rest, true)
    else
      let result := updateTaskStatusAux rest taskId targetStatus
      (task :: result.1, result.2)

/-- `updateTaskStatus(taskId, targetStatus): boolean` of `TaskList.ts`,
returning the updated collection paired with the boolean result. -/
def updateTaskStatus (tl : TaskList) (taskId : String) (targetStatus : TaskStatus) :
    TaskList × Bool :=
  let result := updateTaskStatusAux tl.tasks taskId targetStatus
  ({ tasks := result.1 }, result.2)

/-- `onDrag(taskId, dataTransfer) { setDraggedTaskId(dataTransfer, taskId) }` —
a method of `TaskList` that never touches `this.tasks`; its only effect is on
the transfer channel, so the embedding returns the updated channel. -/
def onDrag (taskId : String) (dataTransfer : Option DataTransferChannel) :
    Option DataTransferChannel :=
  setDraggedTaskId dataTransfer taskId

/-- `onDrop(dataTransfer, targetStatus): boolean`: reads the dragged task id;
`if (!taskId) return false` rejects both a missing value and the empty string
(both are falsy in the source language); otherwise delegates to
`updateTaskStatus(taskId, targetStatus)`. -/
def onDrop (tl : TaskList) (dataTransfer : Option DataTransferChannel)
    (targetStatus : TaskStatus) : TaskList × Bool :=
  match getDraggedTaskId dataTransfer with
  | none => (tl, false)
  | some taskId =>
    if taskId == "" then
      (tl, false)
    else
      updateTaskStatus tl taskId targetStatus

end TaskList

/-- The runtime error that an unguarded property access on a missing value
would raise in the source language. -/
inductive JsError where
  | typeError
deriving DecidableEq, Repr

/-- A property access through a possibly-absent object reference: it raises
`typeError` exactly when the reference is absent, and yields the object
otherwise.  Used to instrument the two places in `TaskList.ts` where a value
of a nullable type is dereferenced. -/
def jsAccess (obj : Option Task) : Except JsError Task :=
  match obj with
  | none => Except.error JsError.typeError
  | some t => Except.ok t

/-- Error-instrumented `updateTaskStatus`: `find` yields a possibly-absent
reference; the accesses `targetTask.status` (the comparison read and the
in-place write) go through `jsAccess` and would raise if the guard
`if (!targetTask) return false` did not filter out the absent case.  The
in-place write through the first-match reference leaves the array equal to
the first-match update `updateTaskStatusAux`. -/
def updateTaskStatusE (tl : TaskList) (taskId : String) (targetStatus : TaskStatus) :
    Except JsError (TaskList × Bool) :=
  let targetTask := tl.tasks.find? (fun task => task.id == taskId)
  if targetTask.isNone then
    Except.ok (tl, false)
  else
    match jsAccess targetTask with
    | Except.error e => Except.error e
    | Except.ok t =>
      if t.status == targetStatus then
        Except.ok (tl, false)
      else
        match jsAccess targetTask with
        | Except.error e => Except.error e
        | Except.ok _ =>
          Except.ok
            ({ tasks := (TaskList.updateTaskStatusAux tl.tasks taskId targetStatus).1 },
              true)

/-- Error-instrumented `onDrop`: the only nullable value, the channel read,
is guarded by `if (!taskId) return false` before any use. -/
def onDropE (tl : TaskList) (dataTransfer : Option DataTransferChannel)
    (targetStatus : TaskStatus) : Except JsError (TaskList × Bool) :=
  match getDraggedTaskId dataTransfer with
  | none => Except.ok (tl, false)
  | some taskId =>
    if taskId == "" then
      Except.ok (tl, false)
    else
      updateTaskStatusE tl taskId targetStatus

/-- Error-instrumented `getAll`: no fallible step occurs in its body. -/
def getAllE (tl : TaskList) : Except JsError (List Task) :=
  Except.ok (TaskList.getAll tl)

/-- Error-instrumented `getByStatus`: no fallible step occurs in its body. -/
def getByStatusE (tl : TaskList) (status : TaskStatus) : Except JsError (List Task) :=
  Except.ok (TaskList.getByStatus tl status)

/-- Error-instrumented `add`: no fallible step occurs in its body. -/
def addE (tl : TaskList) (newTask : Task) : Except JsError TaskList :=
  Except.ok (TaskList.add tl newTask)

/-- Error-instrumented `onDrag`: the channel write is a silent no-op on a
null transfer object, so no fallible step occurs. -/
def onDragE (taskId : String) (dataTransfer : Option DataTransferChannel) :
    Except JsError (Option DataTransferChannel) :=
  Except.ok (TaskList.onDrag taskId dataTransfer)

namespace JSModel

/-!
A heap-indexed model of the same class, used for the snapshot-isolation
property: in the source language, `this.tasks` holds a *reference* to an
array object and `[...this.tasks]` allocates a fresh array object holding the
same task references.  Task objects and array objects live in a heap; a
sequence-level mutation of an array (push, pop, splice, sort, replacing an
element) rewrites the contents of that one array object and nothing else.
-/

/-- A reference to a task object in the heap. -/
abbrev TaskRef := Nat

/-- A reference to an array object in the heap. -/
abbrev ArrRef := Nat

/-- The heap: task objects and array objects, each addressed by index.  Array
objects hold task references, mirroring that the source's arrays alias the
task objects rather than copying them. -/
structure Heap where
  taskObjs : List Task
  arrays : List (List TaskRef)

/-- The `TaskList` instance state in the heap model: `this.tasks` is a
reference to an array object. -/
structure HeapTaskList where
  tasksArr : ArrRef

/-- Dereference an array object. -/
def readArr (h : Heap) (a : ArrRef) : List TaskRef :=
  (h.arrays[a]?).getD []

/-- Dereference a task object. -/
def readTask (h : Heap) (r : TaskRef) : Option Task :=
  h.taskObjs[r]?

/-- Allocate a fresh array object with contents `elems`; the new object is
distinct from every existing array object. -/
def allocArr (h : Heap) (elems : List TaskRef) : Heap × ArrRef :=
  ({ h with arrays := h.arrays ++ [elems] }, h.arrays.length)

/-- `getAll(): Task[] { return [...this.tasks] }` in the heap model: the
spread allocates a NEW array object holding the same task references, and
returns the new reference. -/
def getAll (h : Heap) (tl : HeapTaskList) : Heap × ArrRef :=
  allocArr h (readArr h tl.tasksArr)

/-- The filter predicate `(task) => task.status === status`, applied through
a task reference. -/
def statusIs (h : Heap) (s : TaskStatus) (r : TaskRef) : Bool :=
  match readTask h r with
  | some t => t.status == s
  | none => false

/-- `getByStatus(status)` in the heap model: `filter` also allocates a fresh
array object for its result. -/
def getByStatus (h : Heap) (tl : HeapTaskList) (s : TaskStatus) : Heap × ArrRef :=
  allocArr h ((readArr h tl.tasksArr).filter (statusIs h s))

/-- An arbitrary sequence-level mutation of the array object `a` (push, pop,
splice, sort, element replacement, clearing, ...): it replaces the contents
of that one array object and touches no other object, in particular no task
object. -/
def mutateArr (h : Heap) (a : ArrRef) (f : List TaskRef → List TaskRef) : Heap :=
  { h with arrays := h.arrays.set a (f (readArr h a)) }

/-- The collection's observable state: the sequence of task values its
internal array presents, in order. -/
def observe (h : Heap) (tl : HeapTaskList) : List (Option Task) :=
  (readArr h tl.tasksArr).map (readTask h)

end JSModel


namespace TaskList

theorem updateTaskStatusAux_not_found (l : List Task) (taskId : String) (s : TaskStatus)
    (h : ∀ t ∈ l, t.id ≠ taskId) :
    updateTaskStatusAux l taskId s = (l, false) := by
  induction l with
  | nil => rfl
  | cons task rest ih =>
    have hne : task.id ≠ taskId := h task (List.mem_cons_self task rest)
    simp only [updateTaskStatusAux, beq_iff_eq, if_neg hne]
    rw [ih (fun t ht => h t (List.mem_cons_of_mem task ht))]

theorem updateTaskStatusAux_found_eq (l1 : List Task) (t : Task) (l2 : List Task)
    (taskId : String) (s : TaskStatus)
    (h1 : ∀ u ∈ l1, u.id ≠ taskId) (ht : t.id = taskId) (hs : t.status = s) :
    updateTaskStatusAux (l1 ++ t :: l2) taskId s = (l1 ++ t :: l2, false) := by
  induction l1 with
  | nil =>
    simp only [List.nil_append, updateTaskStatusAux, beq_iff_eq, if_pos ht, if_pos hs]
  | cons u rest ih =>
    have hne : u.id ≠ taskId := h1 u (List.mem_cons_self u rest)
    simp only [List.cons_append, updateTaskStatusAux, beq_iff_eq, if_neg hne, List.append_eq]
    rw [ih (fun v hv => h1 v (List.mem_cons_of_mem u hv))]

theorem updateTaskStatusAux_found_ne (l1 : List Task) (t : Task) (l2 : List Task)
    (taskId : String) (s : TaskStatus)
    (h1 : ∀ u ∈ l1, u.id ≠ taskId) (ht : t.id = taskId) (hs : t.status ≠ s) :
    updateTaskStatusAux (l1 ++ t :: l2) taskId s
      = (l1 ++ { t with status := s } :: l2, true) := by
  induction l1 with
  | nil =>
    simp only [List.nil_append, updateTaskStatusAux, beq_iff_eq, if_pos ht, if_neg hs]
  | cons u rest ih =>
    have hne : u.id ≠ taskId := h1 u (List.mem_cons_self u rest)
    simp only [List.cons_append, updateTaskStatusAux, beq_iff_eq, if_neg hne, List.append_eq]
    rw [ih (fun v hv => h1 v (List.mem_cons_of_mem u hv))]

end TaskList

/-- C1: `updateTaskStatus(id, newStatus)` returns `false` and performs no
mutation when no task with that id exists; returns `false` and performs no
mutation when the first task with that id already has status `newStatus`;
otherwise it mutates exactly that task's status in place to `newStatus`
(leaving every other task and the order untouched) and returns `true`. -/
theorem c1_updateStatus_cases (tl : TaskList) (taskId : String) (s : TaskStatus) :
    ((∀ t ∈ tl.tasks, t.id ≠ taskId) →
        TaskList.updateTaskStatus tl taskId s = (tl, false))
    ∧ ∀ l1 t l2, tl.tasks = l1 ++ t :: l2 → (∀ u ∈ l1, u.id ≠ taskId) → t.id = taskId →
        ((t.status = s → TaskList.updateTaskStatus tl taskId s = (tl, false))
        ∧ (t.status ≠ s → TaskList.updateTaskStatus tl taskId s
            = (⟨l1 ++ { t with status := s } :: l2⟩, true))) := by
  obtain ⟨ts⟩ := tl
  refine ⟨fun h => ?_, fun l1 t l2 hdec h1 ht => ?_⟩
  · simp only [TaskList.updateTaskStatus,
      TaskList.updateTaskStatusAux_not_found ts taskId s h]
  · cases hdec
    refine ⟨fun hs => ?_, fun hs => ?_⟩
    · simp only [TaskList.updateTaskStatus, List.append_eq,
        TaskList.updateTaskStatusAux_found_eq l1 t l2 taskId s h1 ht hs]
    · simp only [TaskList.updateTaskStatus, List.append_eq,
        TaskList.updateTaskStatusAux_found_ne l1 t l2 taskId s h1 ht hs]

/-- Witness for C1: on `[{id := "t1", toDo}]`, moving `"t1"` to `inProgress`
succeeds with the status mutated in place. -/
theorem c1_witness :
    TaskList.updateTaskStatus ⟨[⟨"t1", .toDo, "a"⟩]⟩ "t1" .inProgress
      = (⟨[⟨"t1", .inProgress, "a"⟩]⟩, true) :=
  ((c1_updateStatus_cases ⟨[⟨"t1", .toDo, "a"⟩]⟩ "t1" .inProgress).2
    [] ⟨"t1", .toDo, "a"⟩ [] rfl (by simp) rfl).2 (by decide)

/-- C4: a drop whose transfer-channel read yields no dragged task identifier
returns `false` and leaves the collection completely unchanged. -/
theorem c4_drop_without_drag (tl : TaskList) (dt : Option DataTransferChannel)
    (s : TaskStatus) (h : getDraggedTaskId dt = none) :
    TaskList.onDrop tl dt s = (tl, false) := by
  simp only [TaskList.onDrop, h]

/-- Witness for C4: dropping on a fresh channel into which nothing was
written fails and mutates nothing. -/
theorem c4_witness :
    TaskList.onDrop ⟨[⟨"t1", .toDo, "a"⟩]⟩ (some ⟨none⟩) .done
      = (⟨[⟨"t1", .toDo, "a"⟩]⟩, false) :=
  c4_drop_without_drag ⟨[⟨"t1", .toDo, "a"⟩]⟩ (some ⟨none⟩) .done rfl

/-- C10: `onDrop` treats an empty-string dragged task identifier exactly like
an absent one: whenever the channel stores `""`, the drop returns `false` and
the collection is unchanged — even though a task whose id is `""` may exist
in the collection (the quantification over `tl` includes such collections). -/
theorem c10_empty_string_falsy (tl : TaskList) (dt : Option DataTransferChannel)
    (s : TaskStatus) (h : getDraggedTaskId dt = some ("")) :
    TaskList.onDrop tl dt s = (tl, false) := by
  simp only [TaskList.onDrop, h]
  simp

/-- Witness for C10: a collection holding a task with the empty id, with the
empty string written into the channel by `onDrag` itself, still rejects the
drop. -/
theorem c10_witness :
    TaskList.onDrop ⟨[⟨"", .toDo, "a"⟩]⟩ (TaskList.onDrag ("") (some ⟨none⟩)) .done
      = (⟨[⟨"", .toDo, "a"⟩]⟩, false) :=
  c10_empty_string_falsy ⟨[⟨"", .toDo, "a"⟩]⟩ (TaskList.onDrag ("") (some ⟨none⟩)) .done rfl

/-- C8: first-match semantics under duplicate ids: when the collection splits
as `l1 ++ t :: l2` with no id-match in `l1` and `t.id = taskId`,
`updateTaskStatus` inspects only `t` — `l2` (which may contain further tasks
with the same id) is returned untouched in both the no-op and the success
case — and `onDrop` with that id stored behaves identically. -/
theorem c8_first_match (l1 : List Task) (t : Task) (l2 : List Task) (taskId : String)
    (s : TaskStatus) (h1 : ∀ u ∈ l1, u.id ≠ taskId) (ht : t.id = taskId) :
    ((t.status = s →
        TaskList.updateTaskStatus ⟨l1 ++ t :: l2⟩ taskId s = (⟨l1 ++ t :: l2⟩, false))
    ∧ (t.status ≠ s →
        TaskList.updateTaskStatus ⟨l1 ++ t :: l2⟩ taskId s
          = (⟨l1 ++ { t with status := s } :: l2⟩, true)))
    ∧ ∀ dt, getDraggedTaskId dt = some taskId → taskId ≠ "" →
        TaskList.onDrop ⟨l1 ++ t :: l2⟩ dt s
          = TaskList.updateTaskStatus ⟨l1 ++ t :: l2⟩ taskId s := by
  refine ⟨⟨fun hs => ?_, fun hs => ?_⟩, fun dt hdt hne => ?_⟩
  · simp only [TaskList.updateTaskStatus,
      TaskList.updateTaskStatusAux_found_eq l1 t l2 taskId s h1 ht hs]
  · simp only [TaskList.updateTaskStatus,
      TaskList.updateTaskStatusAux_found_ne l1 t l2 taskId s h1 ht hs]
  · simp only [TaskList.onDrop, hdt, beq_iff_eq, if_neg hne]

/-- Witness for C8: with two tasks sharing id `"d"`, only the first is moved;
the duplicate keeps its status. -/
theorem c8_witness :
    TaskList.updateTaskStatus ⟨[⟨"d", .toDo, "a"⟩, ⟨"d", .toDo, "b"⟩]⟩ "d" .done
      = (⟨[⟨"d", .done, "a"⟩, ⟨"d", .toDo, "b"⟩]⟩, true) :=
  ((c8_first_match [] ⟨"d", .toDo, "a"⟩ [⟨"d", .toDo, "b"⟩] "d" .done
    (by simp) rfl).1).2 (by decide)

/-- C5: a successful move of the unique task with a given id from status `A`
(here `t.status`) to a distinct status `b` returns `true`; afterwards
`getByStatus b` includes the task and `getByStatus A` no longer does; the
collection keeps its size and order, every other task is untouched, and every
field of the moved task other than `status` is unchanged (all captured by the
equation on the resulting task list). -/
theorem c5_successful_move (l1 : List Task) (t : Task) (l2 : List Task) (b : TaskStatus)
    (h1 : ∀ u ∈ l1, u.id ≠ t.id) (h2 : ∀ u ∈ l2, u.id ≠ t.id) (hb : t.status ≠ b) :
    (TaskList.updateTaskStatus ⟨l1 ++ t :: l2⟩ t.id b).2 = true
    ∧ (TaskList.updateTaskStatus ⟨l1 ++ t :: l2⟩ t.id b).1.tasks
        = l1 ++ { t with status := b } :: l2
    ∧ { t with status := b }
        ∈ TaskList.getByStatus (TaskList.updateTaskStatus ⟨l1 ++ t :: l2⟩ t.id b).1 b
    ∧ (∀ u ∈ TaskList.getByStatus
          (TaskList.updateTaskStatus ⟨l1 ++ t :: l2⟩ t.id b).1 t.status, u.id ≠ t.id)
    ∧ (TaskList.updateTaskStatus ⟨l1 ++ t :: l2⟩ t.id b).1.tasks.length
        = (l1 ++ t :: l2).length := by
  have key : TaskList.updateTaskStatus ⟨l1 ++ t :: l2⟩ t.id b
      = (⟨l1 ++ { t with status := b } :: l2⟩, true) := by
    simp only [TaskList.updateTaskStatus,
      TaskList.updateTaskStatusAux_found_ne l1 t l2 t.id b h1 rfl hb]
  rw [key]
  refine ⟨rfl, rfl, ?_, ?_, by simp⟩
  · simp [TaskList.getByStatus, List.mem_filter]
  · intro u hu
    simp only [TaskList.getByStatus, List.mem_filter, List.mem_append,
      List.mem_cons, beq_iff_eq] at hu
    obtain ⟨hmem, hstat⟩ := hu
    rcases hmem with hl1 | heq | hl2
    · exact h1 u hl1
    · rw [heq] at hstat
      exact absurd hstat (Ne.symm hb)
    · exact h2 u hl2

/-- Witness for C5: moving the only task `"t1"` from `toDo` to `inProgress`
succeeds and relocates it between the status filters. -/
theorem c5_witness :
    (TaskList.updateTaskStatus ⟨[⟨"t1", .toDo, "a"⟩]⟩ "t1" .inProgress).2 = true
    ∧ (⟨"t1", .inProgress, "a"⟩ : Task)
        ∈ TaskList.getByStatus
            (TaskList.updateTaskStatus ⟨[⟨"t1", .toDo, "a"⟩]⟩ "t1" .inProgress).1
            .inProgress := by
  have h := c5_successful_move [] ⟨"t1", .toDo, "a"⟩ [] .inProgress
    (by simp) (by simp) (by decide)
  exact ⟨h.1, h.2.2.1⟩

/-- C6: filter partition: every task of `getAll` appears in `getByStatus S`
for exactly one status `S` of the closed enumeration (namely its own status),
and the union of the `getByStatus` results equals `getAll` as sets.  Every
task's status is a member of the closed set by the type of `status`. -/
theorem c6_filter_partition (tl : TaskList) (t : Task) :
    (t ∈ TaskList.getAll tl →
        t ∈ TaskList.getByStatus tl t.status
        ∧ ∀ s, t ∈ TaskList.getByStatus tl s → s = t.status)
    ∧ (t ∈ TaskList.getAll tl ↔ ∃ s, t ∈ TaskList.getByStatus tl s) := by
  constructor
  · intro hmem
    refine ⟨?_, ?_⟩
    · simp only [TaskList.getByStatus, List.mem_filter, beq_self_eq_true, and_true]
      exact hmem
    intro s hs
    simp only [TaskList.getByStatus, List.mem_filter, beq_iff_eq] at hs
    exact hs.2.symm
  · constructor
    · intro hmem
      exact ⟨t.status, by
        simp only [TaskList.getAll] at hmem
        simp [TaskList.getByStatus, List.mem_filter, hmem]⟩
    · rintro ⟨s, hs⟩
      simp only [TaskList.getByStatus, List.mem_filter] at hs
      exact hs.1

/-- Witness for C6: the seeded task is found in the filter for its own
status. -/
theorem c6_witness :
    (⟨"t1", .toDo, "a"⟩ : Task)
      ∈ TaskList.getByStatus ⟨[⟨"t1", .toDo, "a"⟩]⟩ .toDo :=
  ((c6_filter_partition ⟨[⟨"t1", .toDo, "a"⟩]⟩ ⟨"t1", .toDo, "a"⟩).1 (by decide)).1

/-- C7: insertion order is preserved: appending tasks `a`, `b`, `c` (all of
status `s`) and filtering by `s` yields them in that order after the earlier
matches; `getAll` lists tasks in insertion order (`add` appends at the end);
and `getByStatus` is a sublist of `getAll`, so it preserves relative
insertion order among the tasks it returns. -/
theorem c7_insertion_order (tl : TaskList) (a b c : Task) (s : TaskStatus)
    (ha : a.status = s) (hb : b.status = s) (hc : c.status = s) :
    TaskList.getByStatus (TaskList.add (TaskList.add (TaskList.add tl a) b) c) s
      = TaskList.getByStatus tl s ++ [a, b, c]
    ∧ TaskList.getAll (TaskList.add tl c) = TaskList.getAll tl ++ [c]
    ∧ (TaskList.getByStatus tl s).Sublist (TaskList.getAll tl) := by
  refine ⟨?_, rfl, List.filter_sublist _⟩
  simp [TaskList.getByStatus, TaskList.add, List.filter_append, ha, hb, hc]

/-- Witness for C7: adding three `toDo` tasks to the empty collection and
filtering yields them in insertion order. -/
theorem c7_witness :
    TaskList.getByStatus
      (TaskList.add (TaskList.add (TaskList.add ⟨[]⟩ ⟨"a", .toDo, "x"⟩)
        ⟨"b", .toDo, "y"⟩) ⟨"c", .toDo, "z"⟩) .toDo
      = [⟨"a", .toDo, "x"⟩, ⟨"b", .toDo, "y"⟩, ⟨"c", .toDo, "z"⟩] := by
  have h := (c7_insertion_order ⟨[]⟩ ⟨"a", .toDo, "x"⟩ ⟨"b", .toDo, "y"⟩
    ⟨"c", .toDo, "z"⟩ .toDo rfl rfl rfl).1
  simpa using h

/-- C3 counterexample: the round-trip claim fails for the empty-string id.
The collection `[{id := "", toDo}]` contains a task with id `""` whose status
differs from `done`, yet `beginDrag("", channel)` followed by
`completeDrop(channel, done)` returns `false` (the source's `if (!taskId)`
treats the stored `""` as absent) and `getByStatus done` stays empty. -/
theorem c3_counterexample :
    (⟨"", TaskStatus.toDo, "a"⟩ : Task) ∈ TaskList.getAll ⟨[⟨"", .toDo, "a"⟩]⟩
    ∧ TaskStatus.toDo ≠ TaskStatus.done
    ∧ (TaskList.onDrop ⟨[⟨"", .toDo, "a"⟩]⟩
        (TaskList.onDrag ("") (some ⟨none⟩)) .done).2 = false
    ∧ ¬ ∃ u ∈ TaskList.getByStatus
        (TaskList.onDrop ⟨[⟨"", .toDo, "a"⟩]⟩
          (TaskList.onDrag ("") (some ⟨none⟩)) .done).1 .done, u.id = "" := by
  decide

/-- C3 (amended): for every collection whose first task with id `t.id` is `t`,
provided the id is non-empty and `t.status ≠ s`, `beginDrag` on a present
(non-null) channel followed by `completeDrop` on the same channel returns
`true` and afterwards `getByStatus s` contains a task with that id; moreover
`completeDrop` with any channel storing a non-empty id behaves exactly as
`updateStatus` on the stored id. -/
theorem c3_roundtrip (l1 : List Task) (t : Task) (l2 : List Task)
    (ch : DataTransferChannel) (s : TaskStatus)
    (h1 : ∀ u ∈ l1, u.id ≠ t.id) (hid : t.id ≠ "") (hs : t.status ≠ s) :
    ((TaskList.onDrop ⟨l1 ++ t :: l2⟩ (TaskList.onDrag t.id (some ch)) s).2 = true
    ∧ ∃ u ∈ TaskList.getByStatus
        (TaskList.onDrop ⟨l1 ++ t :: l2⟩ (TaskList.onDrag t.id (some ch)) s).1 s,
        u.id = t.id)
    ∧ ∀ tl dt i, getDraggedTaskId dt = some i → i ≠ "" →
        TaskList.onDrop tl dt s = TaskList.updateTaskStatus tl i s := by
  have hch : getDraggedTaskId (TaskList.onDrag t.id (some ch)) = some t.id := rfl
  have hkey : TaskList.onDrop ⟨l1 ++ t :: l2⟩ (TaskList.onDrag t.id (some ch)) s
      = (⟨l1 ++ { t with status := s } :: l2⟩, true) := by
    simp only [TaskList.onDrop, hch, beq_iff_eq, if_neg hid,
      TaskList.updateTaskStatus,
      TaskList.updateTaskStatusAux_found_ne l1 t l2 t.id s h1 rfl hs]
  refine ⟨⟨by rw [hkey], ?_⟩, fun tl dt i hdt hne => ?_⟩
  · rw [hkey]
    refine ⟨{ t with status := s }, ?_, rfl⟩
    simp [TaskList.getByStatus, List.mem_filter]
  · simp only [TaskList.onDrop, hdt, beq_iff_eq, if_neg hne]

/-- Witness for C3 (amended): the spec's own seed — task `"t2"` in `toDo`,
dragged and dropped onto `done` — succeeds. -/
theorem c3_witness :
    (TaskList.onDrop ⟨[⟨"t2", .toDo, "a"⟩]⟩
      (TaskList.onDrag ("t2") (some ⟨none⟩)) .done).2 = true :=
  (c3_roundtrip [] ⟨"t2", .toDo, "a"⟩ [] ⟨none⟩ .done
    (by simp) (by decide) (by decide)).1.1

theorem find_eq_some_decomp (l : List Task) (taskId : String) (t : Task)
    (h : l.find? (fun task => task.id == taskId) = some t) :
    ∃ l1 l2, l = l1 ++ t :: l2 ∧ (∀ u ∈ l1, u.id ≠ taskId) ∧ t.id = taskId := by
  induction l with
  | nil => simp at h
  | cons u rest ih =>
    by_cases hu : u.id = taskId
    · rw [List.find?_cons_of_pos _ (by simp [hu])] at h
      obtain rfl := Option.some.inj h
      exact ⟨[], rest, rfl, by simp, hu⟩
    · rw [List.find?_cons_of_neg _ (by simp [hu])] at h
      obtain ⟨l1, l2, hdec, hl1, ht⟩ := ih h
      refine ⟨u :: l1, l2, by rw [hdec, List.cons_append], ?_, ht⟩
      intro v hv
      rcases List.mem_cons.mp hv with rfl | hv
      · exact hu
      · exact hl1 v hv

theorem updateTaskStatusE_eq_ok (tl : TaskList) (taskId : String) (s : TaskStatus) :
    updateTaskStatusE tl taskId s
      = Except.ok (TaskList.updateTaskStatus tl taskId s) := by
  cases hfind : tl.tasks.find? (fun task => task.id == taskId) with
  | none =>
    have hnone : ∀ u ∈ tl.tasks, u.id ≠ taskId := by
      intro u hu
      simpa using List.find?_eq_none.mp hfind u hu
    simp only [updateTaskStatusE, hfind, Option.isNone_none, if_true,
      TaskList.updateTaskStatus,
      TaskList.updateTaskStatusAux_not_found tl.tasks taskId s hnone]
  | some t =>
    obtain ⟨l1, l2, hdec, hl1, ht⟩ := find_eq_some_decomp tl.tasks taskId t hfind
    by_cases hs : t.status = s
    · have haux : TaskList.updateTaskStatusAux tl.tasks taskId s = (tl.tasks, false) := by
        rw [hdec]
        exact TaskList.updateTaskStatusAux_found_eq l1 t l2 taskId s hl1 ht hs
      simp only [updateTaskStatusE, hfind, Option.isNone_some, Bool.false_eq_true,
        if_false, jsAccess, beq_iff_eq, if_pos hs, TaskList.updateTaskStatus, haux]
    · have haux : (TaskList.updateTaskStatusAux tl.tasks taskId s).2 = true := by
        rw [hdec, TaskList.updateTaskStatusAux_found_ne l1 t l2 taskId s hl1 ht hs]
      simp only [updateTaskStatusE, hfind, Option.isNone_some, Bool.false_eq_true,
        if_false, jsAccess, beq_iff_eq, if_neg hs, TaskList.updateTaskStatus]
      rw [haux]

/-- C9: every operation of the collection is total for every input: the
error-instrumented embeddings of all six operations (in which each unguarded
dereference of a nullable value would surface as a `JsError`) always return
`Except.ok` of the plain result, so all failure modes — unknown id, no-op
move, missing transfer payload — are signalled only through the boolean
result, never by a raised error. -/
theorem c9_never_throws (tl : TaskList) (taskId : String) (s : TaskStatus)
    (dt : Option DataTransferChannel) (t : Task) :
    updateTaskStatusE tl taskId s = Except.ok (TaskList.updateTaskStatus tl taskId s)
    ∧ onDropE tl dt s = Except.ok (TaskList.onDrop tl dt s)
    ∧ getAllE tl = Except.ok (TaskList.getAll tl)
    ∧ getByStatusE tl s = Except.ok (TaskList.getByStatus tl s)
    ∧ addE tl t = Except.ok (TaskList.add tl t)
    ∧ onDragE taskId dt = Except.ok (TaskList.onDrag taskId dt) := by
  refine ⟨updateTaskStatusE_eq_ok tl taskId s, ?_, rfl, rfl, rfl, rfl⟩
  cases hread : getDraggedTaskId dt with
  | none => simp only [onDropE, TaskList.onDrop, hread]
  | some i =>
    by_cases hi : i = ""
    · simp only [onDropE, TaskList.onDrop, hread, beq_iff_eq, if_pos hi]
    · simp only [onDropE, TaskList.onDrop, hread, beq_iff_eq, if_neg hi]
      exact updateTaskStatusE_eq_ok tl i s


namespace JSModel

theorem observe_mutate_fresh (h : Heap) (tl : HeapTaskList)
    (elems : List TaskRef) (f : List TaskRef → List TaskRef)
    (hv : tl.tasksArr < h.arrays.length) :
    observe (mutateArr (allocArr h elems).1 (allocArr h elems).2 f) tl
      = observe h tl := by
  have hne : h.arrays.length ≠ tl.tasksArr := Ne.symm (Nat.ne_of_lt hv)
  simp only [observe, mutateArr, allocArr, readArr, readTask]
  rw [List.getElem?_set_ne hne, List.getElem?_append_left hv]
  rfl

end JSModel

/-- C2: snapshot isolation at the sequence level: `getAll` and `getByStatus`
return a freshly allocated array object, distinct from the collection's
internal one, so any sequence-level mutation of the returned array leaves the
collection's observable state — and hence the results of subsequent
`getAll`/`getByStatus` calls, which are functions of that state — unchanged.
(The task elements of the copy still alias the internal task objects; only
the sequence itself is isolated, which is exactly what the claim states.) -/
theorem c2_snapshot_isolation (h : JSModel.Heap) (tl : JSModel.HeapTaskList)
    (s : TaskStatus) (f : List JSModel.TaskRef → List JSModel.TaskRef)
    (hv : tl.tasksArr < h.arrays.length) :
    (JSModel.getAll h tl).2 ≠ tl.tasksArr
    ∧ JSModel.observe
        (JSModel.mutateArr (JSModel.getAll h tl).1 (JSModel.getAll h tl).2 f) tl
        = JSModel.observe h tl
    ∧ JSModel.observe
        (JSModel.mutateArr (JSModel.getByStatus h tl s).1
          (JSModel.getByStatus h tl s).2 f) tl
        = JSModel.observe h tl := by
  refine ⟨Ne.symm (Nat.ne_of_lt hv), ?_, ?_⟩
  · exact JSModel.observe_mutate_fresh h tl _ f hv
  · exact JSModel.observe_mutate_fresh h tl _ f hv

/-- Witness for C2: a one-task heap; clearing the array returned by `getAll`
leaves the collection's observable state intact. -/
theorem c2_witness :
    JSModel.observe
      (JSModel.mutateArr
        (JSModel.getAll ⟨[⟨"t1", .toDo, "a"⟩], [[0]]⟩ ⟨0⟩).1
        (JSModel.getAll ⟨[⟨"t1", .toDo, "a"⟩], [[0]]⟩ ⟨0⟩).2
        (fun _ => []))
      ⟨0⟩
      = JSModel.observe ⟨[⟨"t1", .toDo, "a"⟩], [[0]]⟩ ⟨0⟩ :=
  (c2_snapshot_isolation ⟨[⟨"t1", .toDo, "a"⟩], [[0]]⟩ ⟨0⟩ .toDo
    (fun _ => []) (by decide)).2.1

end Kanban
